import Mathlib

/-!
# Pico filesystem layer (`include/target/darwin/pico/fs.cc`)

A shallow embedding of the flag translation, the handle constructors, the
descriptor based operations and the directory enumeration of `fs.cc`.

Conventions of the embedding.

* A C `int` flag word is represented by the natural number of its bit
  pattern; `&` and `|` act bit by bit, so the sign plays no part.
* Other `int` values (descriptors, syscall results, callback statuses) are
  integers; `size_t` arithmetic is taken modulo `2 ^ 64`.
* Constants, types and helpers that `fs.cc` uses without declaring them
  (the `File::` flag bits, the `Seek` enumerators, the native `O_*` and
  `SEEK_*` values, `Target::is_error`, `Target::invalid_handle`, the field
  offsets of `struct dirent`, `Memory::Region`) are parameters.
-/

namespace Pico
namespace Filesystem

/-! ## Flag and mode translation -/

/-- The portable flag bits `File::READ`, `File::WRITE`, `File::APPEND` and
`File::TRUNCATE`, declared outside `fs.cc`. -/
structure PicoFlags where
  READ : Nat
  WRITE : Nat
  APPEND : Nat
  TRUNCATE : Nat

/-- The native open constants of `<fcntl.h>` used by `open_flags` and by the
`Directory` constructor, together with the mask `O_ACCMODE` of the access
mode field (the mask is used in statements only, never by the code). -/
structure NativeOpen where
  O_RDONLY : Nat
  O_WRONLY : Nat
  O_RDWR : Nat
  O_NONBLOCK : Nat
  O_APPEND : Nat
  O_TRUNC : Nat
  O_DIRECTORY : Nat
  O_ACCMODE : Nat

/-- The constants of Darwin `<fcntl.h>`. -/
def NativeOpen.darwin : NativeOpen :=
  { O_RDONLY := 0, O_WRONLY := 1, O_RDWR := 2, O_NONBLOCK := 4,
    O_APPEND := 8, O_TRUNC := 1024, O_DIRECTORY := 1048576, O_ACCMODE := 3 }

/-- A choice of four distinct bits for the portable flags. -/
def PicoFlags.bits : PicoFlags :=
  { READ := 1, WRITE := 2, APPEND := 4, TRUNCATE := 8 }

/-- The native table keeps its flags apart: the three additive flags are
non-zero, pairwise disjoint and outside the access mode field, and the three
access modes are distinct values of that field. -/
def NativeOpen.Separate (n : NativeOpen) : Prop :=
  n.O_TRUNC ≠ 0 ∧ n.O_APPEND ≠ 0 ∧ n.O_NONBLOCK ≠ 0 ∧
  n.O_TRUNC &&& n.O_APPEND = 0 ∧ n.O_TRUNC &&& n.O_NONBLOCK = 0 ∧
  n.O_APPEND &&& n.O_NONBLOCK = 0 ∧
  n.O_TRUNC &&& n.O_ACCMODE = 0 ∧ n.O_APPEND &&& n.O_ACCMODE = 0 ∧
  n.O_NONBLOCK &&& n.O_ACCMODE = 0 ∧
  n.O_RDONLY &&& n.O_ACCMODE = n.O_RDONLY ∧
  n.O_WRONLY &&& n.O_ACCMODE = n.O_WRONLY ∧
  n.O_RDWR &&& n.O_ACCMODE = n.O_RDWR ∧
  n.O_RDONLY ≠ n.O_WRONLY ∧ n.O_RDONLY ≠ n.O_RDWR ∧ n.O_WRONLY ≠ n.O_RDWR

/-- The function `open_flags` of `fs.cc`, lines 19 to 27. A C condition
`x & BIT` is true when the conjunction is not zero. -/
def open_flags (p : PicoFlags) (n : NativeOpen) (pico_flags : Nat) : Nat :=
  (if pico_flags &&& p.TRUNCATE ≠ 0 then n.O_TRUNC else 0) |||
  (if pico_flags &&& p.APPEND ≠ 0 then n.O_APPEND else 0) |||
  (if pico_flags &&& p.READ ≠ 0 ∧ ¬ (pico_flags &&& p.WRITE ≠ 0) then n.O_RDONLY else 0) |||
  (if pico_flags &&& p.WRITE ≠ 0 ∧ ¬ (pico_flags &&& p.READ ≠ 0) then n.O_WRONLY else 0) |||
  (if pico_flags &&& p.READ ≠ 0 ∧ pico_flags &&& p.WRITE ≠ 0 then n.O_RDWR else 0) |||
  n.O_NONBLOCK

/-- The enumerators of `Seek`, declared outside `fs.cc`, by their underlying
values. A `Seek` argument is represented by its underlying value. -/
structure SeekEnum where
  BEGIN : Int
  CURRENT : Int
  END : Int

/-- The native seek origins of `<sys/unistd.h>`. -/
structure NativeSeek where
  SEEK_SET : Int
  SEEK_CUR : Int
  SEEK_END : Int

/-- Enumerators numbered in the order of declaration. -/
def SeekEnum.ordinal : SeekEnum := { BEGIN := 0, CURRENT := 1, END := 2 }

/-- The values of Darwin `<sys/unistd.h>`. -/
def NativeSeek.darwin : NativeSeek := { SEEK_SET := 0, SEEK_CUR := 1, SEEK_END := 2 }

/-- The function `seek_whence` of `fs.cc`, lines 29 to 34. -/
def seek_whence (s : SeekEnum) (n : NativeSeek) (method : Int) : Int :=
  if method = s.BEGIN then n.SEEK_SET
  else if method = s.CURRENT then n.SEEK_CUR
  else if method = s.END then n.SEEK_END
  else -1

/-! ## Environment: what `fs.cc` takes from the rest of the library -/

/-- The error convention of the target, declared outside `fs.cc`:
`Target::is_error` and `Target::invalid_handle`. -/
structure Target where
  is_error : Int → Bool
  invalid_handle : Int

/-- Byte offsets, in `struct dirent` of `<dirent.h>`, of the 16 bit field
`d_reclen` and of the array `d_name`. -/
structure DirentLayout where
  reclenOff : Nat
  nameOff : Nat

/-- The record of Darwin `<dirent.h>` read by `getdirentries`: a 32 bit
`d_ino`, then `d_reclen`, `d_type`, `d_namlen`, then `d_name`. -/
def DirentLayout.darwin : DirentLayout := { reclenOff := 4, nameOff := 8 }

/-- Everything `fs.cc` uses and does not declare. -/
structure Env where
  pico : PicoFlags
  native : NativeOpen
  seek : SeekEnum
  whence : NativeSeek
  target : Target
  dirent : DirentLayout
  /-- The native constant `MAP_SHARED`. -/
  MAP_SHARED : Nat
  /-- The helper `Memory::mmap_prot`. -/
  mmap_prot : Nat → Nat
  /-- The capacity of a default constructed `Memory::Region`. -/
  region_size : Nat
  /-- The default `Rights` argument of the `File` constructor. -/
  default_rights : Nat

/-- An environment with the Darwin tables, negative results as errors, `-1`
as the invalid handle and a region of one page. -/
def Env.darwin : Env :=
  { pico := PicoFlags.bits, native := NativeOpen.darwin, seek := SeekEnum.ordinal,
    whence := NativeSeek.darwin,
    target := { is_error := fun r => decide (r < 0), invalid_handle := -1 },
    dirent := DirentLayout.darwin, MAP_SHARED := 1, mmap_prot := fun p => p,
    region_size := 4096, default_rights := 420 }

/-- The fields of `struct stat` that `fs.cc` reads. -/
structure Stat where
  st_size : Nat
  st_uid : Nat
  st_gid : Nat
  st_mode : Nat
  deriving DecidableEq

/-- The native calls issued through `Syscall::`, with their arguments. The
buffer argument of `getdirentries` is given as an offset from the start of
the region. -/
inductive Syscall where
  | open_ (path : String) (flags : Nat)
  | create (path : String) (flags : Nat) (mode : Nat)
  | lseek (fd : Int) (offset : Int) (whence : Int)
  | fstat (fd : Int)
  | fchown (fd : Int) (uid : Nat) (gid : Nat)
  | fchmod (fd : Int) (mode : Nat)
  | mmap (base : Nat) (size : Nat) (prot : Nat) (flags : Nat) (fd : Int) (offset : Int)
  | fchdir (fd : Int)
  | getdirentries (fd : Int) (buf : Nat) (nbytes : Nat)
  deriving DecidableEq

/-- What an operation does that can be observed from outside. -/
inductive Event where
  /-- A native call. -/
  | syscall (c : Syscall)
  /-- The call `dir.close()` of `Directory::each`. -/
  | close (fd : Int)
  /-- An invocation of the callback; `name` is the offset of `d_name`. -/
  | callback (name : Nat)
  /-- A byte of the buffer read by the record walk, by its offset. -/
  | load (off : Nat)
  deriving DecidableEq

/-- The answers of the kernel to the calls other than `getdirentries`.
`fstat` answers `none` when it fails and leaves the `struct stat` alone. -/
structure Kernel where
  open_ : String → Nat → Int
  create : String → Nat → Nat → Int
  lseek : Int → Int → Int → Int
  fstat : Int → Option Stat
  fchown : Int → Nat → Nat → Int
  fchmod : Int → Nat → Int
  mmap : Nat → Nat → Nat → Nat → Int → Int → Int
  fchdir : Int → Int

/-! ## File -/

/-- A `File`: the descriptor held by its `BasicIO`, returned by `file_desc()`. -/
structure File where
  fd : Int
  deriving DecidableEq

/-- Modelled from the spec: `is_invalid()` is declared outside `fs.cc`; the
validity flag is derived from comparing the descriptor against the invalid
sentinel. -/
def File.is_invalid (T : Target) (f : File) : Bool := decide (f.fd = T.invalid_handle)

/-- The value types `Owner` and `Memory::Region` as `fs.cc` builds them. -/
structure Owner where
  user : Nat
  group : Nat
  deriving DecidableEq

/-- The result of `Memory::Region::from(ptr, size)`. -/
structure Region where
  pointer : Int
  size : Nat
  deriving DecidableEq

/-- The constructor `File::File(path, flags, create, rights)`, lines 169 to 183. -/
def File.ctor (E : Env) (K : Kernel) (path : String) (flags : Nat) (create : Bool)
    (rights : Nat) : File × List Event :=
  let fd : Int :=
    if create then K.create path (open_flags E.pico E.native flags) rights
    else K.open_ path (open_flags E.pico E.native flags)
  let ev : Event :=
    if create then .syscall (.create path (open_flags E.pico E.native flags) rights)
    else .syscall (.open_ path (open_flags E.pico E.native flags))
  let fd := if E.target.is_error fd then E.target.invalid_handle else fd
  (⟨fd⟩, [ev])

/-- The method `File::open`, lines 49 to 53. -/
def File.open_ (E : Env) (K : Kernel) (path : String) (flags : Nat) : File × List Event :=
  File.ctor E K path flags false E.default_rights

/-- The method `File::create`, lines 61 to 65. -/
def File.create (E : Env) (K : Kernel) (path : String) (flags : Nat) (rights : Nat) :
    File × List Event :=
  File.ctor E K path flags true rights

/-- The method `File::seek`, lines 55 to 59. -/
def File.seek (E : Env) (K : Kernel) (f : File) (offset : Int) (method : Int) :
    Int × List Event :=
  (K.lseek f.fd offset (seek_whence E.seek E.whence method),
   [.syscall (.lseek f.fd offset (seek_whence E.seek E.whence method))])

/-- The local `struct stat st` after `Syscall::fstat(fd, &st)`; `st0` is its
content before the call, which the code does not set. -/
def fstat_into (K : Kernel) (fd : Int) (st0 : Stat) : Stat := (K.fstat fd).getD st0

/-- The method `File::size()`, lines 76 to 83. -/
def File.size (K : Kernel) (f : File) (st0 : Stat) : Nat × List Event :=
  ((fstat_into K f.fd st0).st_size, [.syscall (.fstat f.fd)])

/-- The method `File::owner()`, lines 139 to 146. -/
def File.owner (K : Kernel) (f : File) (st0 : Stat) : Owner × List Event :=
  (⟨(fstat_into K f.fd st0).st_uid, (fstat_into K f.fd st0).st_gid⟩, [.syscall (.fstat f.fd)])

/-- The method `File::change_owner(Owner)`, lines 148 to 152. -/
def File.change_owner (K : Kernel) (f : File) (owner : Owner) : Int × List Event :=
  (K.fchown f.fd owner.user owner.group, [.syscall (.fchown f.fd owner.user owner.group)])

/-- The method `File::rights()`, lines 154 to 161; the result is the value of
the `Rights` it builds. -/
def File.rights (K : Kernel) (f : File) (st0 : Stat) : Nat × List Event :=
  ((fstat_into K f.fd st0).st_mode, [.syscall (.fstat f.fd)])

/-- The method `File::change_rights(Rights)`, lines 163 to 167. -/
def File.change_rights (K : Kernel) (f : File) (rights : Nat) : Int × List Event :=
  (K.fchmod f.fd rights, [.syscall (.fchmod f.fd rights)])

/-- The method `File::map`, lines 36 to 47. -/
def File.map (E : Env) (K : Kernel) (f : File) (base : Nat) (prot : Nat) (size : Nat)
    (offset : Int) : Region × List Event :=
  let ptr := K.mmap base size (E.mmap_prot prot) E.MAP_SHARED f.fd offset
  let ev : Event := .syscall (.mmap base size (E.mmap_prot prot) E.MAP_SHARED f.fd offset)
  if E.target.is_error ptr then (⟨0, 0⟩, [ev]) else (⟨ptr, size⟩, [ev])

/-! ## Directory -/

/-- A `Directory`: its member `fd`. -/
structure Directory where
  fd : Int
  deriving DecidableEq

/-- Modelled from the spec: `is_invalid()` is declared outside `fs.cc`; the
validity flag is derived from comparing the descriptor against the invalid
sentinel. -/
def Directory.is_invalid (T : Target) (d : Directory) : Bool :=
  decide (d.fd = T.invalid_handle)

/-- The constructor `Directory::Directory(path)`, lines 221 to 227. -/
def Directory.ctor (E : Env) (K : Kernel) (path : String) : Directory × List Event :=
  let fd := K.open_ path (E.native.O_RDONLY ||| E.native.O_DIRECTORY)
  let fd := if E.target.is_error fd then E.target.invalid_handle else fd
  (⟨fd⟩, [.syscall (.open_ path (E.native.O_RDONLY ||| E.native.O_DIRECTORY))])

/-- The method `Directory::open`, lines 229 to 233. -/
def Directory.open_ (E : Env) (K : Kernel) (path : String) : Directory × List Event :=
  Directory.ctor E K path

/-- The method `Directory::set_current()`, lines 235 to 239. -/
def Directory.set_current (K : Kernel) (d : Directory) : Int × List Event :=
  (K.fchdir d.fd, [.syscall (.fchdir d.fd)])

/-! ## Directory enumeration -/

/-- The modulus of `size_t` and of pointer arithmetic. -/
def SIZE_MOD : Nat := 2 ^ 64

/-- The field `ent->d_reclen` of the record at offset `off` of the buffer:
an unsigned 16 bit value, least significant byte first. -/
def d_reclen (lay : DirentLayout) (buf : Nat → Nat) (off : Nat) : Nat :=
  buf (off + lay.reclenOff) % 256 + 256 * (buf (off + lay.reclenOff + 1) % 256)

/-- One answer of `getdirentries`: the value returned and the bytes the
kernel wrote at the buffer address it was given. -/
structure Resp where
  ret : Int
  data : List Nat

/-- The buffer after the kernel wrote `data` at offset `pos`. -/
def store (buf : Nat → Nat) (pos : Nat) (data : List Nat) : Nat → Nat :=
  fun i => if pos ≤ i ∧ i < pos + data.length then data.getD (i - pos) 0 else buf i

/-- How the fetch loop of `Directory::list` ends. -/
inductive Fetched where
  /-- The answers given ran out before the loop ended. -/
  | pending (trace : List Event)
  /-- The loop left by `return -1`. -/
  | failed (trace : List Event)
  /-- The loop left by `break`, with the buffer and `read_size`. -/
  | filled (buf : Nat → Nat) (read_size : Nat) (trace : List Event)

/-- Put an event in front of the trace of a fetch. -/
def Fetched.cons (e : Event) : Fetched → Fetched
  | .pending t => .pending (e :: t)
  | .failed t => .failed (e :: t)
  | .filled b r t => .filled b r (e :: t)

/-- The trace of a fetch. -/
def Fetched.trace : Fetched → List Event
  | .pending t => t
  | .failed t => t
  | .filled _ _ t => t

/-- The fetch loop of `Directory::list`, lines 264 to 276, run against the
successive answers of `getdirentries`. `size` is `region.size()`; the
resize keeps the bytes already written (the region is a growable buffer). -/
def fetch (T : Target) (fd : Int) : List Resp → (Nat → Nat) → Nat → Nat → Fetched
  | [], _, _, _ => .pending []
  | r :: rest, buf, size, read_size =>
    let ev : Event :=
      .syscall (.getdirentries fd read_size ((size + SIZE_MOD - read_size) % SIZE_MOD))
    let buf1 := store buf read_size r.data
    if r.ret = 0 then .filled buf1 read_size [ev]
    else if T.is_error r.ret then .failed [ev]
    else
      Fetched.cons ev
        (fetch T fd rest buf1 ((size * 2) % SIZE_MOD)
          ((((read_size : Int) + r.ret) % (SIZE_MOD : Int)).toNat))

/-- The outcome of a run: the value returned (`none` when the run was cut
short), the state of the callback, and what was observed. -/
structure Run (σ : Type) where
  out : Option Int
  st : σ
  trace : List Event

/-- The record walk of `Directory::list`, lines 284 to 289: the loop of the
macro `foreach_dirent` (lines 7 to 10) around the call of `proc`.
`dirents` is the address of the buffer, `off` the cursor and `ret` the
local of line 282; the pointer `ent` advances in step with `off`, so it is
`dirents + off`. The first argument bounds the number of loop tests. The
callback receives the buffer and the offset of `d_name`, and has a state. -/
def foreach_dirent {σ : Type} (lay : DirentLayout) (proc : σ → (Nat → Nat) → Nat → Int × σ)
    (buf : Nat → Nat) (dirents dsize : Nat) : Nat → Nat → Int → σ → Run σ
  | 0, _, _, s => ⟨none, s, []⟩
  | fuel + 1, off, ret, s =>
    if (dirents + off) % SIZE_MOD ≠ 0 ∧ off < dsize then
      let r := proc s buf (off + lay.nameOff)
      if r.1 ≠ 0 then ⟨some r.1, r.2, [.callback (off + lay.nameOff)]⟩
      else
        let next := foreach_dirent lay proc buf dirents dsize fuel
          ((off + d_reclen lay buf off) % SIZE_MOD) r.1 r.2
        ⟨next.out, next.st,
          .callback (off + lay.nameOff) :: .load (off + lay.reclenOff) ::
            .load (off + lay.reclenOff + 1) :: next.trace⟩
    else ⟨some ret, s, []⟩

/-- What `Directory::list` meets and does not control. -/
structure World where
  /-- The answers of the successive `getdirentries` calls. -/
  script : List Resp
  /-- The content of the fresh region. -/
  mem : Nat → Nat
  /-- The address of the region when the records are walked (line 279). -/
  region : Nat
  /-- The value of the local `ret` of line 282, declared without initialiser. -/
  ret0 : Int

/-- The method `Directory::list`, lines 255 to 292. -/
def Directory.list {σ : Type} (E : Env) (d : Directory)
    (proc : σ → (Nat → Nat) → Nat → Int × σ) (s : σ) (w : World) (fuel : Nat) : Run σ :=
  match fetch E.target d.fd w.script w.mem E.region_size 0 with
  | .pending t => ⟨none, s, t⟩
  | .failed t => ⟨some (-1), s, t⟩
  | .filled buf read_size t =>
    let walk := foreach_dirent E.dirent proc buf w.region read_size fuel 0 w.ret0 s
    ⟨walk.out, walk.st, t ++ walk.trace⟩

/-- The method `Directory::each`, lines 241 to 253. -/
def Directory.each {σ : Type} (E : Env) (K : Kernel) (path : String)
    (proc : σ → (Nat → Nat) → Nat → Int × σ) (s : σ) (w : World) (fuel : Nat) : Run σ :=
  let dir := Directory.ctor E K path
  if dir.1.is_invalid E.target then ⟨some (-1), s, dir.2⟩
  else
    let r := dir.1.list E proc s w fuel
    match r.out with
    | none => ⟨none, r.st, dir.2 ++ r.trace⟩
    | some ret => ⟨some ret, r.st, dir.2 ++ r.trace ++ [.close dir.1.fd]⟩

/-! ## Vocabulary of the statements -/

/-- The name offsets handed to the callback, in order. -/
def callbacks : List Event → List Nat
  | [] => []
  | .callback p :: t => p :: callbacks t
  | _ :: t => callbacks t

/-- The buffer offsets read by the record walk, in order. -/
def loads : List Event → List Nat
  | [] => []
  | .load a :: t => a :: loads t
  | _ :: t => loads t

/-- The native calls of a trace, in order. -/
def syscalls : List Event → List Syscall
  | [] => []
  | .syscall c :: t => c :: syscalls t
  | _ :: t => syscalls t

/-- The descriptors closed in a trace, in order. -/
def closes : List Event → List Int
  | [] => []
  | .close fd :: t => fd :: closes t
  | _ :: t => closes t

/-- The offsets of `n` consecutive records, the first at `off`. -/
def recordOffsets (lay : DirentLayout) (buf : Nat → Nat) : Nat → Nat → List Nat
  | 0, _ => []
  | n + 1, off => off :: recordOffsets lay buf n (off + d_reclen lay buf off)

/-- The offset just after `n` consecutive records, the first at `off`. -/
def recordsEnd (lay : DirentLayout) (buf : Nat → Nat) : Nat → Nat → Nat
  | 0, off => off
  | n + 1, off => recordsEnd lay buf n (off + d_reclen lay buf off)

/-- The first `dsize` bytes of the buffer hold `n` records, one after the
other from offset 0, each of positive length, ending exactly at `dsize`. -/
def Tiles (lay : DirentLayout) (buf : Nat → Nat) (n dsize : Nat) : Prop :=
  (∀ o ∈ recordOffsets lay buf n 0, 0 < d_reclen lay buf o) ∧ recordsEnd lay buf n 0 = dsize

/-- The statuses the callback gives when fed the names one after the other. -/
def answers {σ : Type} (proc : σ → (Nat → Nat) → Nat → Int × σ) (buf : Nat → Nat) :
    σ → List Nat → List Int
  | _, [] => []
  | s, p :: ps => (proc s buf p).1 :: answers proc buf (proc s buf p).2 ps

/-! ## Sample kernels and callbacks for the concrete instances -/

/-- A kernel that fails every call with `-1`. -/
def Kernel.refusing : Kernel :=
  { open_ := fun _ _ => -1, create := fun _ _ _ => -1, lseek := fun _ _ _ => -1,
    fstat := fun _ => none, fchown := fun _ _ _ => -1, fchmod := fun _ _ => -1,
    mmap := fun _ _ _ _ _ _ => -1, fchdir := fun _ => -1 }

/-- A kernel that opens and creates descriptor 3 and succeeds elsewhere. -/
def Kernel.granting : Kernel :=
  { open_ := fun _ _ => 3, create := fun _ _ _ => 3, lseek := fun _ off _ => off,
    fstat := fun _ => some ⟨0, 0, 0, 0⟩, fchown := fun _ _ _ => 0, fchmod := fun _ _ => 0,
    mmap := fun _ _ _ _ _ _ => 4096, fchdir := fun _ => 0 }

/-- A callback without state that always answers `0`. -/
def proc_continue : Unit → (Nat → Nat) → Nat → Int × Unit := fun _ _ _ => (0, ())

/-- A callback that counts its invocations and answers `5` on the second. -/
def proc_stop_second : Nat → (Nat → Nat) → Nat → Int × Nat :=
  fun k _ _ => (if k = 1 then 5 else 0, k + 1)

/-- An empty directory: the first `getdirentries` returns 0. -/
def World.empty : World :=
  { script := [⟨0, []⟩], mem := fun _ => 0, region := 4096, ret0 := 7 }

/-- How many statuses are consumed: up to and including the first that is not 0. -/
def stopIndex : List Int → Nat
  | [] => 0
  | a :: t => if a ≠ 0 then 1 else 1 + stopIndex t

/-- The last status consumed, or `ret` when there is none. -/
def lastStatus (ret : Int) : List Int → Int
  | [] => ret
  | a :: t => if a ≠ 0 then a else lastStatus a t

/-- The cursor after `i` steps of a walk that is never stopped. -/
def cursor (lay : DirentLayout) (buf : Nat → Nat) : Nat → Nat
  | 0 => 0
  | i + 1 => (cursor lay buf i + d_reclen lay buf (cursor lay buf i)) % SIZE_MOD

/-- Two Darwin records of 12 bytes, named `a` and `b`. -/
def two_records : List Nat :=
  [1, 0, 0, 0, 12, 0, 8, 1, 97, 0, 0, 0, 2, 0, 0, 0, 12, 0, 8, 1, 98, 0, 0, 0]

/-- A directory read in one call of 24 bytes, then the closing 0. -/
def World.two_entries : World :=
  { script := [⟨24, two_records⟩, ⟨0, []⟩], mem := fun _ => 0, region := 4096, ret0 := 7 }

/-- A read cut short at 14 bytes, in a region that still holds an old byte
at offset 16. -/
def World.truncated : World :=
  { script := [⟨14, two_records.take 14⟩, ⟨0, []⟩], mem := fun i => if i = 16 then 12 else 0,
    region := 4096, ret0 := 7 }

/-! ## Theorems -/

/-- A value inside the access mode field is disjoint from a flag outside it. -/
theorem and_eq_zero_of_field {x t acc : Nat} (hx : x &&& acc = x) (ht : t &&& acc = 0) :
    x &&& t = 0 := by
  rw [← hx, Nat.and_assoc, Nat.and_comm acc t, ht, Nat.and_zero]

/-- C2: `open_flags` always sets the native non-blocking bit, sets `O_TRUNC`
exactly when `TRUNCATE` is set and `O_APPEND` exactly when `APPEND` is set;
when `READ` or `WRITE` is set the access mode field is the one mode that the
two bits select, and differs from the other two; the result is a function of
the four bit tests alone. -/
theorem open_flags_translation (p : PicoFlags) (n : NativeOpen) (h : n.Separate) :
    (∀ f, open_flags p n f &&& n.O_NONBLOCK = n.O_NONBLOCK) ∧
    (∀ f, open_flags p n f &&& n.O_TRUNC = n.O_TRUNC ↔ f &&& p.TRUNCATE ≠ 0) ∧
    (∀ f, open_flags p n f &&& n.O_APPEND = n.O_APPEND ↔ f &&& p.APPEND ≠ 0) ∧
    (∀ f, f &&& p.READ ≠ 0 → f &&& p.WRITE = 0 →
      open_flags p n f &&& n.O_ACCMODE = n.O_RDONLY ∧
      open_flags p n f &&& n.O_ACCMODE ≠ n.O_WRONLY ∧
      open_flags p n f &&& n.O_ACCMODE ≠ n.O_RDWR) ∧
    (∀ f, f &&& p.WRITE ≠ 0 → f &&& p.READ = 0 →
      open_flags p n f &&& n.O_ACCMODE = n.O_WRONLY ∧
      open_flags p n f &&& n.O_ACCMODE ≠ n.O_RDONLY ∧
      open_flags p n f &&& n.O_ACCMODE ≠ n.O_RDWR) ∧
    (∀ f, f &&& p.READ ≠ 0 → f &&& p.WRITE ≠ 0 →
      open_flags p n f &&& n.O_ACCMODE = n.O_RDWR ∧
      open_flags p n f &&& n.O_ACCMODE ≠ n.O_RDONLY ∧
      open_flags p n f &&& n.O_ACCMODE ≠ n.O_WRONLY) ∧
    (∀ f g, (f &&& p.TRUNCATE ≠ 0 ↔ g &&& p.TRUNCATE ≠ 0) →
      (f &&& p.APPEND ≠ 0 ↔ g &&& p.APPEND ≠ 0) →
      (f &&& p.READ ≠ 0 ↔ g &&& p.READ ≠ 0) →
      (f &&& p.WRITE ≠ 0 ↔ g &&& p.WRITE ≠ 0) →
      open_flags p n f = open_flags p n g) := by
  obtain ⟨hT, hA, hN, hTA, hTN, hAN, hTm, hAm, hNm, hRO, hWO, hRW, d1, d2, d3⟩ := h
  have hAT : n.O_APPEND &&& n.O_TRUNC = 0 := by rw [Nat.and_comm]; exact hTA
  have hNT : n.O_NONBLOCK &&& n.O_TRUNC = 0 := by rw [Nat.and_comm]; exact hTN
  have hNA : n.O_NONBLOCK &&& n.O_APPEND = 0 := by rw [Nat.and_comm]; exact hAN
  have r1 := and_eq_zero_of_field hRO hTm
  have r2 := and_eq_zero_of_field hRO hAm
  have w1 := and_eq_zero_of_field hWO hTm
  have w2 := and_eq_zero_of_field hWO hAm
  have b1 := and_eq_zero_of_field hRW hTm
  have b2 := and_eq_zero_of_field hRW hAm
  refine ⟨?_, ?_, ?_, ?_, ?_, ?_, ?_⟩
  · intro f
    unfold open_flags
    rw [Nat.and_distrib_right, Nat.and_self]
    apply Nat.eq_of_testBit_eq
    intro i
    simp only [Nat.testBit_or, Nat.testBit_and]
    cases n.O_NONBLOCK.testBit i <;> simp
  · intro f
    unfold open_flags
    simp only [Nat.and_distrib_right]
    by_cases c1 : f &&& p.TRUNCATE = 0 <;> by_cases c2 : f &&& p.APPEND = 0 <;>
      by_cases c3 : f &&& p.READ = 0 <;> by_cases c4 : f &&& p.WRITE = 0 <;>
      simp [c1, c2, c3, c4, hAT, hNT, r1, w1, b1, Ne.symm hT]
  · intro f
    unfold open_flags
    simp only [Nat.and_distrib_right]
    by_cases c1 : f &&& p.TRUNCATE = 0 <;> by_cases c2 : f &&& p.APPEND = 0 <;>
      by_cases c3 : f &&& p.READ = 0 <;> by_cases c4 : f &&& p.WRITE = 0 <;>
      simp [c1, c2, c3, c4, hTA, hNA, r2, w2, b2, Ne.symm hA]
  · intro f c3 c4
    have e : open_flags p n f &&& n.O_ACCMODE = n.O_RDONLY := by
      unfold open_flags
      simp only [Nat.and_distrib_right]
      by_cases c1 : f &&& p.TRUNCATE = 0 <;> by_cases c2 : f &&& p.APPEND = 0 <;>
        simp [c1, c2, c3, c4, hTm, hAm, hNm, hRO]
    rw [e]; exact ⟨rfl, d1, d2⟩
  · intro f c4 c3
    have e : open_flags p n f &&& n.O_ACCMODE = n.O_WRONLY := by
      unfold open_flags
      simp only [Nat.and_distrib_right]
      by_cases c1 : f &&& p.TRUNCATE = 0 <;> by_cases c2 : f &&& p.APPEND = 0 <;>
        simp [c1, c2, c3, c4, hTm, hAm, hNm, hWO]
    rw [e]; exact ⟨rfl, Ne.symm d1, d3⟩
  · intro f c3 c4
    have e : open_flags p n f &&& n.O_ACCMODE = n.O_RDWR := by
      unfold open_flags
      simp only [Nat.and_distrib_right]
      by_cases c1 : f &&& p.TRUNCATE = 0 <;> by_cases c2 : f &&& p.APPEND = 0 <;>
        simp [c1, c2, c3, c4, hTm, hAm, hNm, hRW]
    rw [e]; exact ⟨rfl, Ne.symm d2, Ne.symm d3⟩
  · intro f g e1 e2 e3 e4
    unfold open_flags
    simp only [e1, e2, e3, e4]

/-- The Darwin table is separate, and read plus write gives `O_RDWR` there. -/
theorem open_flags_translation_witness :
    NativeOpen.darwin.Separate ∧
    open_flags PicoFlags.bits NativeOpen.darwin 3 &&& NativeOpen.darwin.O_ACCMODE = NativeOpen.darwin.O_RDWR :=
  ⟨by unfold NativeOpen.Separate; decide,
   ((open_flags_translation PicoFlags.bits NativeOpen.darwin (by unfold NativeOpen.Separate; decide)).2.2.2.2.2.1 3
      (by decide) (by decide)).1⟩

/-- C3: `seek_whence` sends `BEGIN`, `CURRENT` and `END` to `SEEK_SET`,
`SEEK_CUR` and `SEEK_END`; every other value gives `-1`, which is none of the
three native origins. -/
theorem seek_whence_cases (s : SeekEnum) (n : NativeSeek)
    (hs : s.BEGIN ≠ s.CURRENT ∧ s.BEGIN ≠ s.END ∧ s.CURRENT ≠ s.END)
    (hn : 0 ≤ n.SEEK_SET ∧ 0 ≤ n.SEEK_CUR ∧ 0 ≤ n.SEEK_END) :
    seek_whence s n s.BEGIN = n.SEEK_SET ∧
    seek_whence s n s.CURRENT = n.SEEK_CUR ∧
    seek_whence s n s.END = n.SEEK_END ∧
    ∀ m, m ≠ s.BEGIN → m ≠ s.CURRENT → m ≠ s.END →
      seek_whence s n m = -1 ∧ seek_whence s n m ≠ n.SEEK_SET ∧
      seek_whence s n m ≠ n.SEEK_CUR ∧ seek_whence s n m ≠ n.SEEK_END := by
  obtain ⟨h1, h2, h3⟩ := hs
  obtain ⟨p1, p2, p3⟩ := hn
  refine ⟨?_, ?_, ?_, ?_⟩
  · simp [seek_whence]
  · simp [seek_whence, Ne.symm h1]
  · simp [seek_whence, Ne.symm h2, Ne.symm h3]
  · intro m m1 m2 m3
    have e : seek_whence s n m = -1 := by simp [seek_whence, m1, m2, m3]
    rw [e]
    refine ⟨rfl, ?_, ?_, ?_⟩ <;> omega

/-- With the ordinal enumerators and the Darwin origins, the value 7 is rejected. -/
theorem seek_whence_cases_witness :
    seek_whence SeekEnum.ordinal NativeSeek.darwin SeekEnum.ordinal.END = NativeSeek.darwin.SEEK_END ∧
    seek_whence SeekEnum.ordinal NativeSeek.darwin 7 = -1 :=
  have h := seek_whence_cases SeekEnum.ordinal NativeSeek.darwin (by decide) (by decide)
  ⟨h.2.2.1, (h.2.2.2 7 (by decide) (by decide) (by decide)).1⟩

/-! ### Step equations of the two loops -/

/-- The fetch loop on an answer of 0: the loop is left by `break`. -/
theorem fetch_zero (T : Target) (fd : Int) (r : Resp) (rest : List Resp) (buf : Nat → Nat)
    (size read_size : Nat) (h0 : r.ret = 0) :
    fetch T fd (r :: rest) buf size read_size =
      .filled (store buf read_size r.data) read_size
        [.syscall (.getdirentries fd read_size ((size + SIZE_MOD - read_size) % SIZE_MOD))] := by
  simp [fetch, h0]

/-- The fetch loop on an answer classified as an error: `return -1`. -/
theorem fetch_error (T : Target) (fd : Int) (r : Resp) (rest : List Resp) (buf : Nat → Nat)
    (size read_size : Nat) (h0 : r.ret ≠ 0) (he : T.is_error r.ret = true) :
    fetch T fd (r :: rest) buf size read_size =
      .failed
        [.syscall (.getdirentries fd read_size ((size + SIZE_MOD - read_size) % SIZE_MOD))] := by
  simp [fetch, h0, he]

/-- The fetch loop on any other answer: grow and go round again. -/
theorem fetch_more (T : Target) (fd : Int) (r : Resp) (rest : List Resp) (buf : Nat → Nat)
    (size read_size : Nat) (h0 : r.ret ≠ 0) (he : T.is_error r.ret = false) :
    fetch T fd (r :: rest) buf size read_size =
      Fetched.cons
        (.syscall (.getdirentries fd read_size ((size + SIZE_MOD - read_size) % SIZE_MOD)))
        (fetch T fd rest (store buf read_size r.data) ((size * 2) % SIZE_MOD)
          ((((read_size : Int) + r.ret) % (SIZE_MOD : Int)).toNat)) := by
  simp [fetch, h0, he]

/-- The record walk when the loop test fails. -/
theorem foreach_dirent_exit {σ : Type} (lay : DirentLayout)
    (proc : σ → (Nat → Nat) → Nat → Int × σ) (buf : Nat → Nat) (dirents dsize fuel off : Nat)
    (ret : Int) (s : σ) (hc : ¬ ((dirents + off) % SIZE_MOD ≠ 0 ∧ off < dsize)) :
    foreach_dirent lay proc buf dirents dsize (fuel + 1) off ret s = ⟨some ret, s, []⟩ := by
  rw [foreach_dirent, if_neg hc]

/-- The record walk when the callback asks to stop. -/
theorem foreach_dirent_stop {σ : Type} (lay : DirentLayout)
    (proc : σ → (Nat → Nat) → Nat → Int × σ) (buf : Nat → Nat) (dirents dsize fuel off : Nat)
    (ret : Int) (s : σ) (hc : (dirents + off) % SIZE_MOD ≠ 0 ∧ off < dsize)
    (hr : (proc s buf (off + lay.nameOff)).1 ≠ 0) :
    foreach_dirent lay proc buf dirents dsize (fuel + 1) off ret s =
      ⟨some (proc s buf (off + lay.nameOff)).1, (proc s buf (off + lay.nameOff)).2,
        [.callback (off + lay.nameOff)]⟩ := by
  rw [foreach_dirent, if_pos hc]
  simp only [if_pos hr]

/-- The record walk when the callback answers 0: advance by `d_reclen`. -/
theorem foreach_dirent_next {σ : Type} (lay : DirentLayout)
    (proc : σ → (Nat → Nat) → Nat → Int × σ) (buf : Nat → Nat) (dirents dsize fuel off : Nat)
    (ret : Int) (s : σ) (hc : (dirents + off) % SIZE_MOD ≠ 0 ∧ off < dsize)
    (hr : (proc s buf (off + lay.nameOff)).1 = 0) :
    foreach_dirent lay proc buf dirents dsize (fuel + 1) off ret s =
      ⟨(foreach_dirent lay proc buf dirents dsize fuel
          ((off + d_reclen lay buf off) % SIZE_MOD) 0 (proc s buf (off + lay.nameOff)).2).out,
       (foreach_dirent lay proc buf dirents dsize fuel
          ((off + d_reclen lay buf off) % SIZE_MOD) 0 (proc s buf (off + lay.nameOff)).2).st,
       .callback (off + lay.nameOff) :: .load (off + lay.reclenOff) ::
         .load (off + lay.reclenOff + 1) ::
         (foreach_dirent lay proc buf dirents dsize fuel
          ((off + d_reclen lay buf off) % SIZE_MOD) 0 (proc s buf (off + lay.nameOff)).2).trace⟩ := by
  rw [foreach_dirent, if_pos hc]
  simp only [hr, ne_eq, not_true_eq_false, if_false]

/-! ### What the two loops of `Directory::list` can emit -/

/-- The trace of a fetch with one more event in front. -/
theorem Fetched.trace_cons (e : Event) (f : Fetched) : (f.cons e).trace = e :: f.trace := by
  cases f <;> rfl

/-- The fetch loop emits native calls only. -/
theorem fetch_trace_kinds (T : Target) (fd : Int) (script : List Resp) :
    ∀ (buf : Nat → Nat) (size read_size : Nat),
      callbacks (fetch T fd script buf size read_size).trace = [] ∧
      loads (fetch T fd script buf size read_size).trace = [] ∧
      closes (fetch T fd script buf size read_size).trace = [] := by
  induction script with
  | nil => intro buf size read_size; simp [fetch, Fetched.trace, callbacks, loads, closes]
  | cons r rest ih =>
    intro buf size read_size
    by_cases h0 : r.ret = 0
    · rw [fetch_zero T fd r rest buf size read_size h0]
      simp [Fetched.trace, callbacks, loads, closes]
    · cases he : T.is_error r.ret
      · rw [fetch_more T fd r rest buf size read_size h0 he]
        simp only [Fetched.trace_cons, callbacks, loads, closes]
        exact ih _ _ _
      · rw [fetch_error T fd r rest buf size read_size h0 he]
        simp [Fetched.trace, callbacks, loads, closes]

/-- The record walk emits callbacks and loads only. -/
theorem foreach_dirent_trace_kinds {σ : Type} (lay : DirentLayout)
    (proc : σ → (Nat → Nat) → Nat → Int × σ) (buf : Nat → Nat) (dirents dsize : Nat) :
    ∀ (fuel off : Nat) (ret : Int) (s : σ),
      syscalls (foreach_dirent lay proc buf dirents dsize fuel off ret s).trace = [] ∧
      closes (foreach_dirent lay proc buf dirents dsize fuel off ret s).trace = [] := by
  intro fuel
  induction fuel with
  | zero => intro off ret s; simp [foreach_dirent, syscalls, closes]
  | succ n ih =>
    intro off ret s
    by_cases hc : (dirents + off) % SIZE_MOD ≠ 0 ∧ off < dsize
    · by_cases hr : (proc s buf (off + lay.nameOff)).1 = 0
      · rw [foreach_dirent_next lay proc buf dirents dsize n off ret s hc hr]
        simp only [syscalls, closes]
        exact ih _ _ _
      · rw [foreach_dirent_stop lay proc buf dirents dsize n off ret s hc hr]
        simp [syscalls, closes]
    · rw [foreach_dirent_exit lay proc buf dirents dsize n off ret s hc]
      simp [syscalls, closes]

/-- The callbacks of a concatenation. -/
theorem callbacks_append (a b : List Event) : callbacks (a ++ b) = callbacks a ++ callbacks b := by
  induction a with
  | nil => rfl
  | cons e t ih => cases e <;> simp [callbacks, ih]

/-- The loads of a concatenation. -/
theorem loads_append (a b : List Event) : loads (a ++ b) = loads a ++ loads b := by
  induction a with
  | nil => rfl
  | cons e t ih => cases e <;> simp [loads, ih]

/-- The closes of a concatenation. -/
theorem closes_append (a b : List Event) : closes (a ++ b) = closes a ++ closes b := by
  induction a with
  | nil => rfl
  | cons e t ih => cases e <;> simp [closes, ih]

/-- The native calls of a concatenation. -/
theorem syscalls_append (a b : List Event) : syscalls (a ++ b) = syscalls a ++ syscalls b := by
  induction a with
  | nil => rfl
  | cons e t ih => cases e <;> simp [syscalls, ih]

/-- `Directory::list` closes nothing. -/
theorem list_closes_nothing {σ : Type} (E : Env) (d : Directory)
    (proc : σ → (Nat → Nat) → Nat → Int × σ) (s : σ) (w : World) (fuel : Nat) :
    closes (d.list E proc s w fuel).trace = [] := by
  unfold Directory.list
  have hf := fetch_trace_kinds E.target d.fd w.script w.mem E.region_size 0
  cases h : fetch E.target d.fd w.script w.mem E.region_size 0 with
  | pending t => rw [h] at hf; simpa [Fetched.trace] using hf.2.2
  | failed t => rw [h] at hf; simpa [Fetched.trace] using hf.2.2
  | filled buf rs t =>
    rw [h] at hf
    simp only [closes_append]
    rw [(foreach_dirent_trace_kinds E.dirent proc buf w.region rs fuel 0 w.ret0 s).2]
    simpa [Fetched.trace] using hf.2.2

/-- C8: `Directory::each` returns `-1` after the failed open alone when the
open fails, with no `getdirentries`, callback or close; otherwise it returns
what `list` returns, whatever the value, and its trace is the open, then the
trace of `list`, then one close of the descriptor, `list` itself closing
nothing. -/
theorem each_opens_lists_closes {σ : Type} (E : Env) (K : Kernel) (path : String)
    (proc : σ → (Nat → Nat) → Nat → Int × σ) (s : σ) (w : World) (fuel : Nat)
    (hinv : E.target.is_error E.target.invalid_handle = true) :
    (∀ r, K.open_ path (E.native.O_RDONLY ||| E.native.O_DIRECTORY) = r →
      E.target.is_error r = true →
      (Directory.each E K path proc s w fuel).out = some (-1) ∧
      (Directory.each E K path proc s w fuel).st = s ∧
      (Directory.each E K path proc s w fuel).trace =
        [.syscall (.open_ path (E.native.O_RDONLY ||| E.native.O_DIRECTORY))]) ∧
    (∀ r, K.open_ path (E.native.O_RDONLY ||| E.native.O_DIRECTORY) = r →
      E.target.is_error r = false →
      (Directory.each E K path proc s w fuel).out = (Directory.list E ⟨r⟩ proc s w fuel).out ∧
      closes (Directory.list E ⟨r⟩ proc s w fuel).trace = [] ∧
      ∀ v, (Directory.list E ⟨r⟩ proc s w fuel).out = some v →
        (Directory.each E K path proc s w fuel).out = some v ∧
        (Directory.each E K path proc s w fuel).trace =
          [.syscall (.open_ path (E.native.O_RDONLY ||| E.native.O_DIRECTORY))] ++
            (Directory.list E ⟨r⟩ proc s w fuel).trace ++ [.close r] ∧
        closes (Directory.each E K path proc s w fuel).trace = [r]) := by
  refine ⟨?_, ?_⟩
  · intro r hr he
    simp [Directory.each, Directory.ctor, Directory.is_invalid, hr, he]
  · intro r hr he
    have hne : r ≠ E.target.invalid_handle := by
      intro e; rw [e, hinv] at he; exact Bool.noConfusion he
    have hc := list_closes_nothing E ⟨r⟩ proc s w fuel
    have hout : (Directory.each E K path proc s w fuel).out
        = (Directory.list E ⟨r⟩ proc s w fuel).out := by
      simp only [Directory.each, Directory.ctor, Directory.is_invalid, hr, he]
      simp only [Bool.false_eq_true, if_false, hne, decide_False]
      cases h : (Directory.list E ⟨r⟩ proc s w fuel).out <;> simp
    refine ⟨hout, hc, ?_⟩
    intro v hv
    refine ⟨by rw [hout, hv], ?_⟩
    have ht : (Directory.each E K path proc s w fuel).trace =
        [.syscall (.open_ path (E.native.O_RDONLY ||| E.native.O_DIRECTORY))] ++
          (Directory.list E ⟨r⟩ proc s w fuel).trace ++ [.close r] := by
      simp only [Directory.each, Directory.ctor, Directory.is_invalid, hr, he]
      simp only [Bool.false_eq_true, if_false, hne, decide_False]
      rw [hv]
    refine ⟨ht, ?_⟩
    rw [ht]
    simp [closes_append, hc, closes]

/-- On an empty directory that opens as descriptor 3, `each` closes 3 once;
when the open is refused it returns `-1`. -/
theorem each_opens_lists_closes_witness :
    closes (Directory.each Env.darwin Kernel.granting "d" proc_continue () World.empty 1).trace
      = [3] ∧
    (Directory.each Env.darwin Kernel.refusing "d" proc_continue () World.empty 1).out
      = some (-1) :=
  ⟨(((each_opens_lists_closes Env.darwin Kernel.granting "d" proc_continue () World.empty 1
      (by decide)).2 3 rfl (by decide)).2.2 7 (by decide)).2.2,
   ((each_opens_lists_closes Env.darwin Kernel.refusing "d" proc_continue () World.empty 1
      (by decide)).1 (-1) rfl (by decide)).1⟩
/-- C7: the handle built by `File::open`, `File::create` and
`Directory::open` stores the raw result of the native call when it is not
classified as an error and the invalid sentinel when it is; so the handle is
invalid exactly when the call failed, and a valid handle holds a result that
is not an error. The sentinel itself is classified as an error. -/
theorem handle_stores_result_or_sentinel (E : Env) (K : Kernel) (path : String)
    (flags rights : Nat)
    (hinv : E.target.is_error E.target.invalid_handle = true) :
    (∀ r, K.open_ path (open_flags E.pico E.native flags) = r →
      (E.target.is_error r = false → (File.open_ E K path flags).1.fd = r) ∧
      (E.target.is_error r = true →
        (File.open_ E K path flags).1.fd = E.target.invalid_handle) ∧
      (File.open_ E K path flags).1.is_invalid E.target = E.target.is_error r ∧
      ((File.open_ E K path flags).1.is_invalid E.target = false →
        E.target.is_error (File.open_ E K path flags).1.fd = false)) ∧
    (∀ r, K.create path (open_flags E.pico E.native flags) rights = r →
      (E.target.is_error r = false → (File.create E K path flags rights).1.fd = r) ∧
      (E.target.is_error r = true →
        (File.create E K path flags rights).1.fd = E.target.invalid_handle) ∧
      (File.create E K path flags rights).1.is_invalid E.target = E.target.is_error r ∧
      ((File.create E K path flags rights).1.is_invalid E.target = false →
        E.target.is_error (File.create E K path flags rights).1.fd = false)) ∧
    (∀ r, K.open_ path (E.native.O_RDONLY ||| E.native.O_DIRECTORY) = r →
      (E.target.is_error r = false → (Directory.open_ E K path).1.fd = r) ∧
      (E.target.is_error r = true →
        (Directory.open_ E K path).1.fd = E.target.invalid_handle) ∧
      (Directory.open_ E K path).1.is_invalid E.target = E.target.is_error r ∧
      ((Directory.open_ E K path).1.is_invalid E.target = false →
        E.target.is_error (Directory.open_ E K path).1.fd = false)) := by
  have key : ∀ r : Int,
      (E.target.is_error r = false →
        (if E.target.is_error r then E.target.invalid_handle else r) = r) ∧
      (E.target.is_error r = true →
        (if E.target.is_error r then E.target.invalid_handle else r)
          = E.target.invalid_handle) ∧
      decide ((if E.target.is_error r then E.target.invalid_handle else r)
          = E.target.invalid_handle) = E.target.is_error r ∧
      (decide ((if E.target.is_error r then E.target.invalid_handle else r)
          = E.target.invalid_handle) = false →
        E.target.is_error (if E.target.is_error r then E.target.invalid_handle else r)
          = false) := by
    intro r
    cases h : E.target.is_error r
    · have hne : r ≠ E.target.invalid_handle := by
        intro e; rw [e, hinv] at h; exact Bool.noConfusion h
      simp [h, hne]
    · simp [h]
  refine ⟨?_, ?_, ?_⟩
  · intro r hr
    simpa [File.open_, File.ctor, File.is_invalid, hr] using key r
  · intro r hr
    simpa [File.create, File.ctor, File.is_invalid, hr] using key r
  · intro r hr
    simpa [Directory.open_, Directory.ctor, Directory.is_invalid, hr] using key r

/-- A refused open gives the sentinel, a granted one gives descriptor 3. -/
theorem handle_stores_result_or_sentinel_witness :
    (File.open_ Env.darwin Kernel.refusing "f" 1).1.fd = -1 ∧
    (Directory.open_ Env.darwin Kernel.granting "d").1.fd = 3 :=
  ⟨((handle_stores_result_or_sentinel Env.darwin Kernel.refusing "f" 1 0 (by decide)).1
      (-1) rfl).2.1 (by decide),
   ((handle_stores_result_or_sentinel Env.darwin Kernel.granting "d" 1 0 (by decide)).2.2
      3 rfl).1 (by decide)⟩

/-- The fetch loop starts with a `getdirentries` on the descriptor it is given. -/
theorem fetch_first_call (T : Target) (fd : Int) (r : Resp) (rest : List Resp)
    (buf : Nat → Nat) (size read_size : Nat) :
    ∃ t, (fetch T fd (r :: rest) buf size read_size).trace =
      .syscall (.getdirentries fd read_size ((size + SIZE_MOD - read_size) % SIZE_MOD)) :: t := by
  by_cases h0 : r.ret = 0
  · exact ⟨[], by rw [fetch_zero T fd r rest buf size read_size h0]; rfl⟩
  · cases he : T.is_error r.ret
    · exact ⟨_, by rw [fetch_more T fd r rest buf size read_size h0 he, Fetched.trace_cons]⟩
    · exact ⟨[], by rw [fetch_error T fd r rest buf size read_size h0 he]; rfl⟩

/-- The trace of `Directory::list` starts with the trace of its fetch loop. -/
theorem list_trace_prefix {σ : Type} (E : Env) (d : Directory)
    (proc : σ → (Nat → Nat) → Nat → Int × σ) (s : σ) (w : World) (fuel : Nat) :
    ∃ t, (d.list E proc s w fuel).trace =
      (fetch E.target d.fd w.script w.mem E.region_size 0).trace ++ t := by
  unfold Directory.list
  cases h : fetch E.target d.fd w.script w.mem E.region_size 0 with
  | pending t => exact ⟨[], by simp [Fetched.trace]⟩
  | failed t => exact ⟨[], by simp [Fetched.trace]⟩
  | filled buf rs t => exact ⟨_, rfl⟩

/-- On the sentinel `File::seek` still calls `lseek`. -/
theorem invalid_handle_seek_issues_lseek :
    File.is_invalid Env.darwin.target ⟨-1⟩ = true ∧
    syscalls (File.seek Env.darwin Kernel.refusing ⟨-1⟩ 0 0).2 = [.lseek (-1) 0 0] ∧
    syscalls (File.seek Env.darwin Kernel.refusing ⟨-1⟩ 0 0).2 ≠ [] := by
  decide

/-- C9, amended: no descriptor based operation tests the handle. On a handle
that carries the invalid sentinel, `File::seek`, `size()`, `owner()`,
`rights()`, `change_owner`, `change_rights`, `map` and
`Directory::set_current()` issue exactly one native call, with the sentinel
as descriptor, and the two that return an `int` return the answer of the
kernel; `Directory::list` starts with a `getdirentries` on the sentinel. -/
theorem invalid_handle_calls_reach_kernel {σ : Type} (E : Env) (K : Kernel) (f : File)
    (d : Directory) (offset : Int) (method : Int) (st0 : Stat) (owner : Owner)
    (rights base prot size : Nat) (moff : Int)
    (proc : σ → (Nat → Nat) → Nat → Int × σ) (s : σ) (w : World) (fuel : Nat)
    (hf : f.is_invalid E.target = true) (hd : d.is_invalid E.target = true) :
    (syscalls (f.seek E K offset method).2 =
        [.lseek E.target.invalid_handle offset (seek_whence E.seek E.whence method)] ∧
      (f.seek E K offset method).1 =
        K.lseek E.target.invalid_handle offset (seek_whence E.seek E.whence method)) ∧
    syscalls (f.size K st0).2 = [.fstat E.target.invalid_handle] ∧
    syscalls (f.owner K st0).2 = [.fstat E.target.invalid_handle] ∧
    syscalls (f.rights K st0).2 = [.fstat E.target.invalid_handle] ∧
    (syscalls (f.change_owner K owner).2 =
        [.fchown E.target.invalid_handle owner.user owner.group] ∧
      (f.change_owner K owner).1 = K.fchown E.target.invalid_handle owner.user owner.group) ∧
    (syscalls (f.change_rights K rights).2 = [.fchmod E.target.invalid_handle rights] ∧
      (f.change_rights K rights).1 = K.fchmod E.target.invalid_handle rights) ∧
    syscalls (f.map E K base prot size moff).2 =
      [.mmap base size (E.mmap_prot prot) E.MAP_SHARED E.target.invalid_handle moff] ∧
    (syscalls (d.set_current K).2 = [.fchdir E.target.invalid_handle] ∧
      (d.set_current K).1 = K.fchdir E.target.invalid_handle) ∧
    (∀ r rest, w.script = r :: rest →
      (syscalls (d.list E proc s w fuel).trace).head? =
        some (.getdirentries E.target.invalid_handle 0
          ((E.region_size + SIZE_MOD - 0) % SIZE_MOD))) := by
  have ef : f.fd = E.target.invalid_handle := by
    simpa [File.is_invalid] using hf
  have ed : d.fd = E.target.invalid_handle := by
    simpa [Directory.is_invalid] using hd
  refine ⟨?_, ?_, ?_, ?_, ?_, ?_, ?_, ?_, ?_⟩
  · simp [File.seek, syscalls, ef]
  · simp [File.size, syscalls, ef]
  · simp [File.owner, syscalls, ef]
  · simp [File.rights, syscalls, ef]
  · simp [File.change_owner, syscalls, ef]
  · simp [File.change_rights, syscalls, ef]
  · unfold File.map
    rw [ef]
    by_cases hp : E.target.is_error
        (K.mmap base size (E.mmap_prot prot) E.MAP_SHARED E.target.invalid_handle moff) = true
    · rw [if_pos hp]; rfl
    · rw [if_neg hp]; rfl
  · simp [Directory.set_current, syscalls, ed]
  · intro r rest hw
    obtain ⟨t, ht⟩ := list_trace_prefix E d proc s w fuel
    obtain ⟨t1, ht1⟩ := fetch_first_call E.target d.fd r rest w.mem E.region_size 0
    rw [ht, hw, ht1, ed]
    simp [syscalls]

/-- With the kernel that refuses every call, the sentinel reaches `fchdir`. -/
theorem invalid_handle_calls_reach_kernel_witness :
    syscalls (Directory.set_current Kernel.refusing ⟨-1⟩).2 = [.fchdir (-1)] ∧
    (Directory.set_current Kernel.refusing ⟨-1⟩).1 = -1 :=
  (invalid_handle_calls_reach_kernel Env.darwin Kernel.refusing ⟨-1⟩ ⟨-1⟩ 0 0 ⟨0, 0, 0, 0⟩
    ⟨0, 0⟩ 0 0 0 0 0 proc_continue () World.empty 1 (by decide) (by decide)).2.2.2.2.2.2.2.1

/-- When the first `getdirentries` returns 0 the walk does not run and
`Directory::list` returns the local `ret` as it was declared. -/
theorem list_first_read_zero {σ : Type} (E : Env) (d : Directory)
    (proc : σ → (Nat → Nat) → Nat → Int × σ) (s : σ) (data : List Nat) (rest : List Resp)
    (mem : Nat → Nat) (region : Nat) (ret0 : Int) (fuel : Nat) :
    (d.list E proc s ⟨⟨0, data⟩ :: rest, mem, region, ret0⟩ (fuel + 1)).out = some ret0 ∧
    callbacks (d.list E proc s ⟨⟨0, data⟩ :: rest, mem, region, ret0⟩ (fuel + 1)).trace = [] := by
  unfold Directory.list
  simp only [fetch_zero E.target d.fd ⟨0, data⟩ rest mem E.region_size 0 rfl]
  rw [foreach_dirent_exit E.dirent proc _ region 0 fuel 0 ret0 s (by omega)]
  simp [callbacks]

/-- C4: on an empty directory `Directory::list` invokes the callback zero
times, but it returns the value its local `ret` happens to hold (here 7),
not 0. -/
theorem list_empty_directory_returns_garbage :
    callbacks (Directory.list Env.darwin ⟨3⟩ proc_continue () World.empty 1).trace = [] ∧
    (Directory.list Env.darwin ⟨3⟩ proc_continue () World.empty 1).out = some 7 ∧
    (Directory.list Env.darwin ⟨3⟩ proc_continue () World.empty 1).out ≠ some 0 := by
  have h := list_first_read_zero Env.darwin ⟨3⟩ proc_continue () [] [] (fun _ => 0) 4096 7 0
  refine ⟨h.2, h.1, ?_⟩
  have e : (Directory.list Env.darwin ⟨3⟩ proc_continue () World.empty 1).out = some 7 := h.1
  rw [e]
  decide

/-- The fetch loop fails at the first answer classified as an error, after
one call per answer. -/
theorem fetch_fails_at_error (T : Target) (fd : Int) (pre : List Resp) (bad : Resp)
    (rest : List Resp)
    (hpre : ∀ r ∈ pre, r.ret ≠ 0 ∧ T.is_error r.ret = false)
    (hbad0 : bad.ret ≠ 0) (hbad : T.is_error bad.ret = true) :
    ∀ (buf : Nat → Nat) (size read_size : Nat),
      ∃ t, fetch T fd (pre ++ bad :: rest) buf size read_size = .failed t ∧
        t.length = pre.length + 1 ∧ (syscalls t).length = pre.length + 1 := by
  induction pre with
  | nil =>
    intro buf size read_size
    exact ⟨_, fetch_error T fd bad rest buf size read_size hbad0 hbad, rfl, rfl⟩
  | cons r pre ih =>
    intro buf size read_size
    have hr := hpre r (List.mem_cons_self r pre)
    obtain ⟨t, ht, hl, hs⟩ := ih (fun x hx => hpre x (List.mem_cons_of_mem r hx))
      (store buf read_size r.data) ((size * 2) % SIZE_MOD)
      ((((read_size : Int) + r.ret) % (SIZE_MOD : Int)).toNat)
    refine ⟨.syscall (.getdirentries fd read_size
      ((size + SIZE_MOD - read_size) % SIZE_MOD)) :: t, ?_, ?_, ?_⟩
    · rw [List.cons_append, fetch_more T fd r _ buf size read_size hr.1 hr.2, ht]
      rfl
    · simp [hl]
    · simp [syscalls, hs]

/-- C5: when a `getdirentries` answer is classified as an error after zero
or more answers that are neither 0 nor errors, `Directory::list` returns
`-1`, has made one call per answer up to the failing one and none after it,
and has not invoked the callback nor read the buffer. -/
theorem list_fetch_error_discards {σ : Type} (E : Env) (d : Directory)
    (proc : σ → (Nat → Nat) → Nat → Int × σ) (s : σ) (w : World) (fuel : Nat)
    (pre : List Resp) (bad : Resp) (rest : List Resp)
    (hscript : w.script = pre ++ bad :: rest)
    (hpre : ∀ r ∈ pre, r.ret ≠ 0 ∧ E.target.is_error r.ret = false)
    (hbad0 : bad.ret ≠ 0) (hbad : E.target.is_error bad.ret = true) :
    (d.list E proc s w fuel).out = some (-1) ∧
    (d.list E proc s w fuel).st = s ∧
    callbacks (d.list E proc s w fuel).trace = [] ∧
    loads (d.list E proc s w fuel).trace = [] ∧
    (syscalls (d.list E proc s w fuel).trace).length = pre.length + 1 ∧
    (d.list E proc s w fuel).trace.length = pre.length + 1 := by
  obtain ⟨t, ht, hl, hs⟩ :=
    fetch_fails_at_error E.target d.fd pre bad rest hpre hbad0 hbad w.mem E.region_size 0
  have hk := fetch_trace_kinds E.target d.fd (pre ++ bad :: rest) w.mem E.region_size 0
  rw [ht] at hk
  have e : d.list E proc s w fuel = ⟨some (-1), s, t⟩ := by
    unfold Directory.list
    rw [hscript, ht]
  rw [e]
  exact ⟨rfl, rfl, hk.1, hk.2.1, hs, hl⟩

/-- A directory whose second read fails. -/
theorem list_fetch_error_discards_witness :
    (Directory.list Env.darwin ⟨3⟩ proc_continue ()
      ⟨[⟨24, []⟩, ⟨-1, []⟩, ⟨0, []⟩], fun _ => 0, 4096, 0⟩ 5).out = some (-1) ∧
    (syscalls (Directory.list Env.darwin ⟨3⟩ proc_continue ()
      ⟨[⟨24, []⟩, ⟨-1, []⟩, ⟨0, []⟩], fun _ => 0, 4096, 0⟩ 5).trace).length = 2 :=
  have h := list_fetch_error_discards Env.darwin ⟨3⟩ proc_continue ()
    ⟨[⟨24, []⟩, ⟨-1, []⟩, ⟨0, []⟩], fun _ => 0, 4096, 0⟩ 5 [⟨24, []⟩] ⟨-1, []⟩ [⟨0, []⟩] rfl
    (by decide) (by decide) (by decide)
  ⟨h.1, h.2.2.2.2.1⟩

/-! ### The record walk over well formed records -/

/-- The end of a run of records is not before its start. -/
theorem recordsEnd_ge (lay : DirentLayout) (buf : Nat → Nat) :
    ∀ (n off : Nat), off ≤ recordsEnd lay buf n off := by
  intro n
  induction n with
  | zero => intro off; simp [recordsEnd]
  | succ n ih =>
    intro off
    have := ih (off + d_reclen lay buf off)
    simp only [recordsEnd]
    omega

/-- There is one record offset per record. -/
theorem recordOffsets_length (lay : DirentLayout) (buf : Nat → Nat) :
    ∀ (n off : Nat), (recordOffsets lay buf n off).length = n := by
  intro n
  induction n with
  | zero => intro off; rfl
  | succ n ih => intro off; simp [recordOffsets, ih]

/-- There is one status per name. -/
theorem answers_length {σ : Type} (proc : σ → (Nat → Nat) → Nat → Int × σ) (buf : Nat → Nat) :
    ∀ (names : List Nat) (s : σ), (answers proc buf s names).length = names.length := by
  intro names
  induction names with
  | nil => intro s; rfl
  | cons p ps ih => intro s; simp [answers, ih]

/-- When the `k`-th status is the first that is not 0, `k` statuses are
consumed and the `k`-th is the last. -/
theorem stopIndex_first (ans : List Int) :
    ∀ (k : Nat) (ret : Int), 1 ≤ k → (∀ j, j < k - 1 → ans.getD j 0 = 0) →
      ans.getD (k - 1) 0 ≠ 0 →
      stopIndex ans = k ∧ lastStatus ret ans = ans.getD (k - 1) 0 := by
  induction ans with
  | nil => intro k ret _ _ h; simp at h
  | cons a t ih =>
    intro k ret hk hz hn
    by_cases ha : a = 0
    · subst ha
      have hk2 : 2 ≤ k := by
        by_contra hlt
        have : k = 1 := by omega
        subst this
        simp at hn
      obtain ⟨m, rfl⟩ : ∃ m, k = m + 1 := ⟨k - 1, by omega⟩
      have hm : 1 ≤ m := by omega
      have e : m + 1 - 1 = (m - 1) + 1 := by omega
      have hz2 : ∀ j, j < m - 1 → t.getD j 0 = 0 := by
        intro j hj
        have := hz (j + 1) (by omega)
        simpa using this
      have hn2 : t.getD (m - 1) 0 ≠ 0 := by
        rw [e] at hn
        simpa using hn
      obtain ⟨h1, h2⟩ := ih m 0 hm hz2 hn2
      refine ⟨?_, ?_⟩
      · simp [stopIndex, h1]; omega
      · rw [e]
        simpa [lastStatus] using h2
    · have hk1 : k = 1 := by
        by_contra hne
        have := hz 0 (by omega)
        simp at this
        exact ha this
      subst hk1
      simp [stopIndex, lastStatus, ha]

/-- When every status is 0 they are all consumed, and the last is 0. -/
theorem stopIndex_all_zero (ans : List Int) :
    ∀ (ret : Int), (∀ a ∈ ans, a = 0) →
      stopIndex ans = ans.length ∧ (ans ≠ [] → lastStatus ret ans = 0) := by
  induction ans with
  | nil => intro ret _; simp [stopIndex]
  | cons a t ih =>
    intro ret h
    have ha : a = 0 := h a (List.mem_cons_self a t)
    obtain ⟨h1, h2⟩ := ih a (fun x hx => h x (List.mem_cons_of_mem a hx))
    refine ⟨?_, ?_⟩
    · simp [stopIndex, ha, h1]; omega
    · intro _
      simp only [lastStatus, ha, ne_eq, not_true_eq_false, if_false]
      cases t with
      | nil => rfl
      | cons b u => simpa [ha] using h2 (by simp)

/-- The record walk over `n` well formed records that end at `dsize`, in a
region that lies in the address space: the callback is fed the names in order
up to the first status that is not 0, and the walk returns the last status. -/
theorem foreach_dirent_records {σ : Type} (lay : DirentLayout)
    (proc : σ → (Nat → Nat) → Nat → Int × σ) (buf : Nat → Nat) (dirents dsize : Nat)
    (hreg : 0 < dirents ∧ dirents + dsize ≤ SIZE_MOD) :
    ∀ (n off : Nat) (ret : Int) (s : σ) (fuel : Nat), n < fuel →
      (∀ o ∈ recordOffsets lay buf n off, 0 < d_reclen lay buf o) →
      recordsEnd lay buf n off = dsize →
      (foreach_dirent lay proc buf dirents dsize fuel off ret s).out =
        some (lastStatus ret
          (answers proc buf s ((recordOffsets lay buf n off).map (· + lay.nameOff)))) ∧
      callbacks (foreach_dirent lay proc buf dirents dsize fuel off ret s).trace =
        ((recordOffsets lay buf n off).map (· + lay.nameOff)).take
          (stopIndex
            (answers proc buf s ((recordOffsets lay buf n off).map (· + lay.nameOff)))) := by
  intro n
  induction n with
  | zero =>
    intro off ret s fuel hf _ hend
    obtain ⟨f, rfl⟩ : ∃ f, fuel = f + 1 := ⟨fuel - 1, by omega⟩
    simp only [recordsEnd] at hend
    rw [foreach_dirent_exit lay proc buf dirents dsize f off ret s (by omega)]
    simp [recordOffsets, answers, lastStatus, stopIndex, callbacks]
  | succ n ih =>
    intro off ret s fuel hf hpos hend
    obtain ⟨f, rfl⟩ : ∃ f, fuel = f + 1 := ⟨fuel - 1, by omega⟩
    have hr : 0 < d_reclen lay buf off := hpos off (by simp [recordOffsets])
    simp only [recordsEnd] at hend
    have hge := recordsEnd_ge lay buf n (off + d_reclen lay buf off)
    rw [hend] at hge
    have hc : (dirents + off) % SIZE_MOD ≠ 0 ∧ off < dsize := by
      refine ⟨?_, by omega⟩
      rw [Nat.mod_eq_of_lt (by omega)]
      omega
    have hmod : (off + d_reclen lay buf off) % SIZE_MOD = off + d_reclen lay buf off :=
      Nat.mod_eq_of_lt (by omega)
    by_cases ha : (proc s buf (off + lay.nameOff)).1 = 0
    · rw [foreach_dirent_next lay proc buf dirents dsize f off ret s hc ha, hmod]
      obtain ⟨h1, h2⟩ := ih (off + d_reclen lay buf off) 0 (proc s buf (off + lay.nameOff)).2 f
        (by omega) (fun o ho => hpos o (by simp [recordOffsets, ho])) hend
      refine ⟨?_, ?_⟩
      · simp only [h1, recordOffsets, List.map_cons, answers, lastStatus, ha, ne_eq,
          not_true_eq_false, if_false]
      · simp only [callbacks, h2, recordOffsets, List.map_cons, answers, stopIndex, ha, ne_eq,
          not_true_eq_false, if_false]
        rw [Nat.add_comm 1, List.take_succ_cons]
    · rw [foreach_dirent_stop lay proc buf dirents dsize f off ret s hc ha]
      simp [recordOffsets, answers, lastStatus, stopIndex, ha, callbacks]
/-- C1: once the fetch has filled the buffer with `N ≥ 1` well formed
records, `Directory::list` invokes the callback on the record names in
buffer order from offset 0. If the `k`-th invocation is the first to return
a status that is not 0, the callback is invoked exactly `k` times, on the
first `k` names, and `list` returns that status; if every invocation returns
0, the callback is invoked once per record and `list` returns 0. The filled
region lies in the address space, at an address that is not null. -/
theorem list_walks_records_until_stop {σ : Type} (E : Env) (d : Directory)
    (proc : σ → (Nat → Nat) → Nat → Int × σ) (s : σ) (w : World) (fuel : Nat)
    (buf : Nat → Nat) (L N : Nat) (t : List Event)
    (hfetch : fetch E.target d.fd w.script w.mem E.region_size 0 = .filled buf L t)
    (hN : 1 ≤ N) (htiles : Tiles E.dirent buf N L)
    (hregion : 0 < w.region ∧ w.region + L ≤ SIZE_MOD)
    (hfuel : N < fuel) :
    (∀ k, 1 ≤ k → k ≤ N →
      (∀ j, j < k - 1 →
        (answers proc buf s
          ((recordOffsets E.dirent buf N 0).map (· + E.dirent.nameOff))).getD j 0 = 0) →
      (answers proc buf s
          ((recordOffsets E.dirent buf N 0).map (· + E.dirent.nameOff))).getD (k - 1) 0 ≠ 0 →
      (d.list E proc s w fuel).out =
        some ((answers proc buf s
          ((recordOffsets E.dirent buf N 0).map (· + E.dirent.nameOff))).getD (k - 1) 0) ∧
      callbacks (d.list E proc s w fuel).trace =
        ((recordOffsets E.dirent buf N 0).map (· + E.dirent.nameOff)).take k ∧
      (callbacks (d.list E proc s w fuel).trace).length = k) ∧
    ((∀ a ∈ answers proc buf s
          ((recordOffsets E.dirent buf N 0).map (· + E.dirent.nameOff)), a = 0) →
      (d.list E proc s w fuel).out = some 0 ∧
      callbacks (d.list E proc s w fuel).trace =
        (recordOffsets E.dirent buf N 0).map (· + E.dirent.nameOff) ∧
      (callbacks (d.list E proc s w fuel).trace).length = N) := by
  obtain ⟨hpos, hend⟩ := htiles
  obtain ⟨hout, hcb⟩ := foreach_dirent_records E.dirent proc buf w.region L hregion N 0 w.ret0 s
    fuel hfuel hpos hend
  have hk := fetch_trace_kinds E.target d.fd w.script w.mem E.region_size 0
  rw [hfetch] at hk
  have hlen : ((recordOffsets E.dirent buf N 0).map (· + E.dirent.nameOff)).length = N := by
    simp [recordOffsets_length]
  have hl_out : (d.list E proc s w fuel).out =
      (foreach_dirent E.dirent proc buf w.region L fuel 0 w.ret0 s).out := by
    unfold Directory.list
    rw [hfetch]
  have hl_cb : callbacks (d.list E proc s w fuel).trace =
      callbacks (foreach_dirent E.dirent proc buf w.region L fuel 0 w.ret0 s).trace := by
    unfold Directory.list
    rw [hfetch]
    simp only [callbacks_append]
    have : callbacks t = [] := hk.1
    rw [this, List.nil_append]
  rw [hl_out, hl_cb, hout, hcb]
  refine ⟨?_, ?_⟩
  · intro k hk1 hkN hz hn
    obtain ⟨e1, e2⟩ := stopIndex_first _ k w.ret0 hk1 hz hn
    rw [e1, e2]
    refine ⟨rfl, rfl, ?_⟩
    rw [List.length_take, hlen]
    omega
  · intro hall
    obtain ⟨e1, e2⟩ := stopIndex_all_zero _ w.ret0 hall
    have hal := answers_length proc buf
      ((recordOffsets E.dirent buf N 0).map (· + E.dirent.nameOff)) s
    have hne : answers proc buf s
        ((recordOffsets E.dirent buf N 0).map (· + E.dirent.nameOff)) ≠ [] := by
      intro h0
      rw [h0, hlen] at hal
      simp at hal
      omega
    rw [e1, e2 hne, hal]
    refine ⟨rfl, ?_, ?_⟩
    · rw [← hlen, List.take_length]
    · rw [List.take_length, hlen]

/-- Two records and a callback that stops on the second: two invocations,
on the names at offsets 8 and 20, and the status 5. -/
theorem list_walks_records_until_stop_witness :
    (Directory.list Env.darwin ⟨3⟩ proc_stop_second 0 World.two_entries 3).out = some 5 ∧
    callbacks (Directory.list Env.darwin ⟨3⟩ proc_stop_second 0 World.two_entries 3).trace
      = [8, 20] :=
  have h := (list_walks_records_until_stop Env.darwin ⟨3⟩ proc_stop_second 0
    World.two_entries 3 (store (store (fun _ => 0) 0 two_records) 24 []) 24 2
    [.syscall (.getdirentries 3 0 4096), .syscall (.getdirentries 3 24 8168)]
    rfl (by decide) (by unfold Tiles; decide) (by decide) (by decide)).1 2 (by decide)
    (by decide) (by decide) (by decide)
  ⟨h.1, h.2.1⟩

/-! ### Termination of the record walk -/

/-- A record length is a 16 bit value. -/
theorem d_reclen_lt (lay : DirentLayout) (buf : Nat → Nat) (off : Nat) :
    d_reclen lay buf off < 65536 := by
  unfold d_reclen
  omega

/-- With positive record lengths the walk ends within `dsize - off + 1` loop
tests and invokes the callback at most `dsize - off` times. -/
theorem foreach_dirent_ends {σ : Type} (lay : DirentLayout)
    (proc : σ → (Nat → Nat) → Nat → Int × σ) (buf : Nat → Nat) (dirents dsize : Nat)
    (hsize : dsize + 65536 ≤ SIZE_MOD)
    (hpos : ∀ i, cursor lay buf i < dsize → 0 < d_reclen lay buf (cursor lay buf i)) :
    ∀ (fuel i off : Nat) (ret : Int) (s : σ), off = cursor lay buf i → dsize - off < fuel →
      (foreach_dirent lay proc buf dirents dsize fuel off ret s).out ≠ none ∧
      (callbacks (foreach_dirent lay proc buf dirents dsize fuel off ret s).trace).length
        ≤ dsize - off := by
  intro fuel
  induction fuel with
  | zero => intro i off ret s _ h; omega
  | succ f ih =>
    intro i off ret s hoff hf
    by_cases hc : (dirents + off) % SIZE_MOD ≠ 0 ∧ off < dsize
    · by_cases ha : (proc s buf (off + lay.nameOff)).1 = 0
      · have hr : 0 < d_reclen lay buf off := by
          have := hpos i (by rw [← hoff]; exact hc.2)
          rwa [← hoff] at this
        have hlt := d_reclen_lt lay buf off
        have hmod : (off + d_reclen lay buf off) % SIZE_MOD = off + d_reclen lay buf off :=
          Nat.mod_eq_of_lt (by omega)
        have hnext : off + d_reclen lay buf off = cursor lay buf (i + 1) := by
          simp only [cursor]
          rw [← hoff, hmod]
        rw [foreach_dirent_next lay proc buf dirents dsize f off ret s hc ha, hmod]
        obtain ⟨h1, h2⟩ := ih (i + 1) (off + d_reclen lay buf off) 0
          (proc s buf (off + lay.nameOff)).2 hnext (by omega)
        refine ⟨h1, ?_⟩
        simp only [callbacks, List.length_cons]
        omega
      · rw [foreach_dirent_stop lay proc buf dirents dsize f off ret s hc ha]
        refine ⟨by simp, ?_⟩
        simp only [callbacks, List.length_cons, List.length_nil]
        omega
    · rw [foreach_dirent_exit lay proc buf dirents dsize f off ret s hc]
      exact ⟨by simp, by simp [callbacks]⟩

/-- A first record of length 0 and a callback that always answers 0: every
loop test finds the cursor at offset 0 again. -/
theorem foreach_dirent_stuck {σ : Type} (lay : DirentLayout)
    (proc : σ → (Nat → Nat) → Nat → Int × σ) (buf : Nat → Nat) (dirents dsize : Nat)
    (hL : 0 < dsize) (hd : dirents % SIZE_MOD ≠ 0) (hz : d_reclen lay buf 0 = 0)
    (hp : ∀ s p, (proc s buf p).1 = 0) :
    ∀ (fuel : Nat) (ret : Int) (s : σ),
      (foreach_dirent lay proc buf dirents dsize fuel 0 ret s).out = none ∧
      callbacks (foreach_dirent lay proc buf dirents dsize fuel 0 ret s).trace =
        List.replicate fuel (0 + lay.nameOff) := by
  intro fuel
  induction fuel with
  | zero => intro ret s; simp [foreach_dirent, callbacks]
  | succ f ih =>
    intro ret s
    have hc : (dirents + 0) % SIZE_MOD ≠ 0 ∧ 0 < dsize := ⟨by simpa using hd, hL⟩
    rw [foreach_dirent_next lay proc buf dirents dsize f 0 ret s hc (hp s _), hz]
    have e : (0 + 0) % SIZE_MOD = 0 := by decide
    rw [e]
    obtain ⟨h1, h2⟩ := ih 0 (proc s buf (0 + lay.nameOff)).2
    exact ⟨h1, by simp only [callbacks, h2, List.replicate_succ]⟩

/-- C10: for a filled length `L` that leaves room for one record length in
`size_t`, when every record the cursor can reach below `L` has
`d_reclen ≥ 1`, the cursor strictly increases at each step and the record
walk ends: given more than `L` loop tests it returns, having invoked the
callback at most `L` times. Without the condition it need not: with
`d_reclen = 0` in the first record and a callback that always returns 0, no
number of loop tests suffices, every invocation being on the record at
offset 0. -/
theorem foreach_dirent_terminates_when_positive {σ : Type} (lay : DirentLayout)
    (proc : σ → (Nat → Nat) → Nat → Int × σ) (buf : Nat → Nat) (dirents L : Nat)
    (ret : Int) (s : σ) :
    (L + 65536 ≤ SIZE_MOD →
      (∀ i, cursor lay buf i < L → 0 < d_reclen lay buf (cursor lay buf i)) →
      (∀ i, cursor lay buf i < L → cursor lay buf i < cursor lay buf (i + 1)) ∧
      ∀ fuel, L < fuel →
        (foreach_dirent lay proc buf dirents L fuel 0 ret s).out ≠ none ∧
        (callbacks (foreach_dirent lay proc buf dirents L fuel 0 ret s).trace).length ≤ L) ∧
    (0 < L → dirents % SIZE_MOD ≠ 0 → d_reclen lay buf 0 = 0 →
      (∀ s p, (proc s buf p).1 = 0) →
      ∀ fuel,
        (foreach_dirent lay proc buf dirents L fuel 0 ret s).out = none ∧
        callbacks (foreach_dirent lay proc buf dirents L fuel 0 ret s).trace =
          List.replicate fuel (0 + lay.nameOff)) := by
  refine ⟨?_, ?_⟩
  · intro hsize hpos
    refine ⟨?_, ?_⟩
    · intro i hi
      have hr := hpos i hi
      have hlt := d_reclen_lt lay buf (cursor lay buf i)
      simp only [cursor]
      rw [Nat.mod_eq_of_lt (by omega)]
      omega
    · intro fuel hf
      have h := foreach_dirent_ends lay proc buf dirents L hsize hpos fuel 0 0 ret s rfl
        (by omega)
      simpa using h
  · intro hL hd hz hp fuel
    exact foreach_dirent_stuck lay proc buf dirents L hL hd hz hp fuel ret s

/-- A buffer of records of length 257 is walked to its end; a buffer of
zeros is not. -/
theorem foreach_dirent_terminates_when_positive_witness :
    (foreach_dirent DirentLayout.darwin proc_continue (fun _ => 1) 4096 300 301 0 7 ()).out
      ≠ none ∧
    (foreach_dirent DirentLayout.darwin proc_continue (fun _ => 0) 4096 1 50 0 7 ()).out
      = none :=
  ⟨(((foreach_dirent_terminates_when_positive DirentLayout.darwin proc_continue (fun _ => 1)
      4096 300 7 ()).1 (by decide) (fun _ _ => by simp [d_reclen])).2 301 (by decide)).1,
   ((foreach_dirent_terminates_when_positive DirentLayout.darwin proc_continue (fun _ => 0)
      4096 1 7 ()).2 (by decide) (by decide) (by decide) (fun _ _ => rfl) 50).1⟩

/-! ### Bounds of the record walk -/

/-- Everything the walk emits belongs to a record that starts below `dsize`. -/
theorem foreach_dirent_starts_below {σ : Type} (lay : DirentLayout)
    (proc : σ → (Nat → Nat) → Nat → Int × σ) (buf : Nat → Nat) (dirents dsize : Nat) :
    ∀ (fuel off : Nat) (ret : Int) (s : σ),
      ∀ e ∈ (foreach_dirent lay proc buf dirents dsize fuel off ret s).trace,
        ∃ o, o < dsize ∧ (e = .callback (o + lay.nameOff) ∨ e = .load (o + lay.reclenOff) ∨
          e = .load (o + lay.reclenOff + 1)) := by
  intro fuel
  induction fuel with
  | zero => intro off ret s e he; simp [foreach_dirent] at he
  | succ f ih =>
    intro off ret s e he
    by_cases hc : (dirents + off) % SIZE_MOD ≠ 0 ∧ off < dsize
    · by_cases ha : (proc s buf (off + lay.nameOff)).1 = 0
      · rw [foreach_dirent_next lay proc buf dirents dsize f off ret s hc ha] at he
        simp only [List.mem_cons] at he
        rcases he with h | h | h | h
        · exact ⟨off, hc.2, Or.inl h⟩
        · exact ⟨off, hc.2, Or.inr (Or.inl h)⟩
        · exact ⟨off, hc.2, Or.inr (Or.inr h)⟩
        · exact ih _ _ _ e h
      · rw [foreach_dirent_stop lay proc buf dirents dsize f off ret s hc ha] at he
        simp only [List.mem_singleton] at he
        exact ⟨off, hc.2, Or.inl he⟩
    · rw [foreach_dirent_exit lay proc buf dirents dsize f off ret s hc] at he
      simp at he

/-- Over records that end at `dsize` and hold their header and the start of
their name, the walk reads and hands out offsets below `dsize` only. -/
theorem foreach_dirent_within {σ : Type} (lay : DirentLayout)
    (proc : σ → (Nat → Nat) → Nat → Int × σ) (buf : Nat → Nat) (dirents dsize : Nat)
    (hsize : dsize < SIZE_MOD) :
    ∀ (n off : Nat) (ret : Int) (s : σ) (fuel : Nat),
      (∀ o ∈ recordOffsets lay buf n off,
        lay.nameOff < d_reclen lay buf o ∧ lay.reclenOff + 2 ≤ d_reclen lay buf o) →
      recordsEnd lay buf n off = dsize →
      (∀ a ∈ loads (foreach_dirent lay proc buf dirents dsize fuel off ret s).trace, a < dsize) ∧
      (∀ p ∈ callbacks (foreach_dirent lay proc buf dirents dsize fuel off ret s).trace,
        p < dsize) := by
  intro n
  induction n with
  | zero =>
    intro off ret s fuel _ hend
    simp only [recordsEnd] at hend
    cases fuel with
    | zero => simp [foreach_dirent, loads, callbacks]
    | succ f =>
      rw [foreach_dirent_exit lay proc buf dirents dsize f off ret s (by omega)]
      simp [loads, callbacks]
  | succ n ih =>
    intro off ret s fuel hfit hend
    cases fuel with
    | zero => simp [foreach_dirent, loads, callbacks]
    | succ f =>
      have hr := hfit off (by simp [recordOffsets])
      simp only [recordsEnd] at hend
      have hge := recordsEnd_ge lay buf n (off + d_reclen lay buf off)
      rw [hend] at hge
      by_cases hc : (dirents + off) % SIZE_MOD ≠ 0 ∧ off < dsize
      · by_cases ha : (proc s buf (off + lay.nameOff)).1 = 0
        · rw [foreach_dirent_next lay proc buf dirents dsize f off ret s hc ha,
            Nat.mod_eq_of_lt (by omega)]
          obtain ⟨h1, h2⟩ := ih (off + d_reclen lay buf off) 0
            (proc s buf (off + lay.nameOff)).2 f
            (fun o ho => hfit o (by simp [recordOffsets, ho])) hend
          refine ⟨?_, ?_⟩
          · intro a hmem
            simp only [loads, List.mem_cons] at hmem
            rcases hmem with h | h | h
            · omega
            · omega
            · exact h1 a h
          · intro p hmem
            simp only [callbacks, List.mem_cons] at hmem
            rcases hmem with h | h
            · omega
            · exact h2 p h
        · rw [foreach_dirent_stop lay proc buf dirents dsize f off ret s hc ha]
          refine ⟨by simp [loads], ?_⟩
          intro p hmem
          simp only [callbacks, List.mem_singleton] at hmem
          omega
      · rw [foreach_dirent_exit lay proc buf dirents dsize f off ret s hc]
        simp [loads, callbacks]

/-- A read cut short at 14 bytes: the walk of `Directory::list` visits the
record at offset 12, reads its length field at offsets 16 and 17 and hands
out the name at offset 20, all past the filled length. -/
theorem list_walk_reads_past_filled_length :
    (∃ buf t, fetch Env.darwin.target 3 World.truncated.script World.truncated.mem
      Env.darwin.region_size 0 = .filled buf 14 t) ∧
    loads (Directory.list Env.darwin ⟨3⟩ proc_continue () World.truncated 3).trace
      = [4, 5, 16, 17] ∧
    callbacks (Directory.list Env.darwin ⟨3⟩ proc_continue () World.truncated 3).trace
      = [8, 20] ∧
    ¬ (∀ a ∈ loads (Directory.list Env.darwin ⟨3⟩ proc_continue () World.truncated 3).trace,
      a < 14) := by
  refine ⟨⟨_, _, rfl⟩, by decide, by decide, by decide⟩

/-- C6, amended: for every buffer and filled length `L`, every record the
walk visits starts at an offset strictly below `L`, also when a reported
length overshoots `L`: each callback and each byte read belongs to a record
whose start is below `L`. When the records end exactly at `L` and each holds
its header and the start of its name, every byte read and every name handed
out lies below `L`. -/
theorem foreach_dirent_cursor_bounded {σ : Type} (lay : DirentLayout)
    (proc : σ → (Nat → Nat) → Nat → Int × σ) (buf : Nat → Nat) (dirents L fuel : Nat)
    (ret : Int) (s : σ) :
    (∀ e ∈ (foreach_dirent lay proc buf dirents L fuel 0 ret s).trace,
      ∃ o, o < L ∧ (e = .callback (o + lay.nameOff) ∨ e = .load (o + lay.reclenOff) ∨
        e = .load (o + lay.reclenOff + 1))) ∧
    (∀ n, L < SIZE_MOD →
      (∀ o ∈ recordOffsets lay buf n 0,
        lay.nameOff < d_reclen lay buf o ∧ lay.reclenOff + 2 ≤ d_reclen lay buf o) →
      recordsEnd lay buf n 0 = L →
      (∀ a ∈ loads (foreach_dirent lay proc buf dirents L fuel 0 ret s).trace, a < L) ∧
      (∀ p ∈ callbacks (foreach_dirent lay proc buf dirents L fuel 0 ret s).trace, p < L)) :=
  ⟨foreach_dirent_starts_below lay proc buf dirents L fuel 0 ret s,
   fun n hsize hfit hend =>
     foreach_dirent_within lay proc buf dirents L hsize n 0 ret s fuel hfit hend⟩

/-- Over the two whole records the offsets read are 4, 5, 16 and 17, all
below 24. -/
theorem foreach_dirent_cursor_bounded_witness :
    loads (foreach_dirent DirentLayout.darwin proc_continue
      (store (fun _ => 0) 0 two_records) 4096 24 3 0 7 ()).trace = [4, 5, 16, 17] ∧
    ∀ a ∈ loads (foreach_dirent DirentLayout.darwin proc_continue
      (store (fun _ => 0) 0 two_records) 4096 24 3 0 7 ()).trace, a < 24 :=
  ⟨by decide,
   ((foreach_dirent_cursor_bounded DirentLayout.darwin proc_continue
    (store (fun _ => 0) 0 two_records) 4096 24 3 7 ()).2 2 (by decide) (by decide)
    (by decide)).1⟩

end Filesystem
end Pico
